import Mathlib

/-!
Verification of the intelligent-music-agent repository.

This file gives a shallow embedding, in Lean 4, of the parts of the
repository needed to settle the frozen claims: the SQLite-backed knowledge
store of `music_agent.py` (`MusicDatabase`), the command dispatch of
`ComprehensiveMusicAgent.handle_command`, and the daemon of
`music_daemon.py` (`MusicDaemon._handle_client`, `_polling_loop`,
`_has_track_changed`).

Embedding conventions:
- SQLite tables are lists of row structures kept in rowid (insertion)
  order; `INSERT OR REPLACE` removes the rows conflicting on the UNIQUE
  key and appends the new row (which receives a fresh rowid), matching
  SQLite semantics; `INSERT OR IGNORE` is a no-op on conflict.
- `SELECT ... LIMIT 1` without ORDER BY returns the first row in rowid
  order; `ORDER BY` is modelled as a stable sort on the rowid order,
  matching SQLite's scan-then-sort behaviour on these untagged tables.
- SQL `REAL` confidences are modelled as rationals.
- `datetime('now')` timestamps are threaded in as explicit parameters.
- SQLite `LOWER` and the case-insensitivity of `LIKE` act on ASCII
  letters only, exactly like `Char.toLower`.
- Python exceptions from external collaborators (AppleScript, Spotify)
  are modelled as `Except` values passed in as cycle/request inputs.
-/

namespace MusicAgent

/-- Boolean test that `pre` is a leading segment of `hay` (character lists). -/
def leadsWith : List Char → List Char → Bool
  | _, [] => true
  | [], _ :: _ => false
  | a :: as, b :: bs => a == b && leadsWith as bs

/-- Boolean substring test on character lists: Python's `needle in hay`. -/
def hasSubList (hay needle : List Char) : Bool :=
  match hay with
  | [] => needle.isEmpty
  | _ :: t => leadsWith hay needle || hasSubList t needle

/-- Python's `needle in hay` on strings (used on already-lowercased text). -/
def strHas (hay needle : String) : Bool :=
  hasSubList hay.data needle.data

/-- ASCII lowercasing of a string, character by character: the behaviour
of SQLite `LOWER` (and of Python `str.lower` on the ASCII command text
this system handles). -/
def lowerStr (s : String) : String :=
  ⟨s.data.map Char.toLower⟩

/-- Case-insensitive substring containment, the reading of "contains the
query as a case-insensitive substring" used by the spec. -/
def ciHasSub (hay needle : String) : Bool :=
  hasSubList (lowerStr hay).data (lowerStr needle).data

/-- SQLite `LIKE` pattern matching: `%` matches any (possibly empty)
sequence (equivalently, the rest of the pattern matches some suffix),
`_` matches exactly one character, other characters match
case-insensitively (ASCII, as in SQLite's default `LIKE`). -/
def likeMatch : List Char → List Char → Bool
  | [], s => s.isEmpty
  | '%' :: ps, s => s.tails.any (fun t => likeMatch ps t)
  | p :: ps, s =>
    match s with
    | [] => false
    | c :: t => (p == '_' || p.toLower == c.toLower) && likeMatch ps t

/-- The `LIKE '%' || q || '%'` test the store runs for fuzzy lookups,
with both sides lowercased as in `find_playlist_by_name` (SQLite `LIKE`
is case-insensitive anyway). -/
def likeFuzzy (q s : String) : Bool :=
  likeMatch ('%' :: ((lowerStr q).data ++ ['%'])) (lowerStr s).data

/-! ## Tags table (`music_agent.py`, `MusicDatabase`) -/

/-- One row of the `tags` table
(UNIQUE(entity_type, entity_name, tag_category, tag_value)). -/
structure TagRow where
  entity_type : String
  entity_name : String
  entity_id : Option String
  tag_category : String
  tag_value : String
  confidence : ℚ
  added_date : ℕ
  added_by : String
  deriving Repr, DecidableEq

/-- Row matches the tags UNIQUE key. -/
def tagKeyIs (r : TagRow) (et en cat v : String) : Bool :=
  r.entity_type == et && r.entity_name == en &&
    r.tag_category == cat && r.tag_value == v

/-- `MusicDatabase.add_tag`: `INSERT OR REPLACE INTO tags ...`.  The
conflicting row (same UNIQUE key) is deleted and the new row inserted
with a fresh rowid; returns `True` on the non-exceptional path. -/
def add_tag (db : List TagRow) (et en cat v : String) (eid : Option String)
    (conf : ℚ) (t : ℕ) (by_ : String) : Bool × List TagRow :=
  (true,
    db.filter (fun r => !(tagKeyIs r et en cat v)) ++
      [⟨et, en, eid, cat, v, conf, t, by_⟩])

theorem filter_not_filter_key (db : List TagRow) (p : TagRow → Bool) :
    (db.filter (fun r => !(p r))).filter p = [] := by
  induction db with
  | nil => rfl
  | cons a t ih =>
    by_cases h : p a = true
    · simp [List.filter, h, ih]
    · simp only [Bool.not_eq_true] at h
      simp [List.filter, h, ih]

/-- Claim C1: re-adding a tag with the same
(entity_type, entity_name, category, value) key replaces the existing
row's confidence and provenance and never duplicates: after any two
successive `add_tag` calls with the same key, from any starting table,
exactly one row with that key remains and it carries the confidence and
provenance (`added_by`) of the later call. -/
theorem tag_upsert_last_write_wins (db : List TagRow) (et en cat v : String)
    (eid1 eid2 : Option String) (c1 c2 : ℚ) (t1 t2 : ℕ) (b1 b2 : String) :
    (((add_tag ((add_tag db et en cat v eid1 c1 t1 b1).2)
        et en cat v eid2 c2 t2 b2).2).filter
      (fun r => tagKeyIs r et en cat v)) =
      [⟨et, en, eid2, cat, v, c2, t2, b2⟩] := by
  simp only [add_tag, List.filter_append]
  rw [filter_not_filter_key]
  simp [List.filter, tagKeyIs]

/-! ## Fuzzy tag lookup (`MusicDatabase.get_entities_by_tag`) -/

/-- Stable insertion of a row into a list sorted by descending
confidence: the row goes before the first element whose confidence is
not greater, so earlier rows stay first among equal confidences. -/
def insConfDesc (x : TagRow) : List TagRow → List TagRow
  | [] => [x]
  | y :: ys =>
    if y.confidence ≤ x.confidence then x :: y :: ys
    else y :: insConfDesc x ys

/-- Stable sort by descending confidence: the embedding of
`ORDER BY confidence DESC` over rows visited in rowid order. -/
def sortConfDesc : List TagRow → List TagRow
  | [] => []
  | x :: xs => insConfDesc x (sortConfDesc xs)

/-- The WHERE clause of `get_entities_by_tag`:
`tag_category = ? AND tag_value LIKE '%'||?||'%'`, optionally also
`entity_type = ?`. -/
def tagQueryPred (cat v : String) (etype : Option String) (r : TagRow) : Bool :=
  r.tag_category == cat && likeFuzzy v r.tag_value &&
    (match etype with
     | none => true
     | some ty => r.entity_type == ty)

/-- `MusicDatabase.get_entities_by_tag`: rows whose category matches and
whose value `LIKE`-matches `'%'||tag_value||'%'`, ordered by descending
confidence.  The Python code projects each row to a dict of
(entity_name, entity_id, entity_type, confidence); the projection is
omitted here, the full rows are returned in the same order. -/
def get_entities_by_tag (db : List TagRow) (cat v : String)
    (etype : Option String) : List TagRow :=
  sortConfDesc (db.filter (tagQueryPred cat v etype))

/-! ## Favorite artists and play history
(`MusicDatabase.add_favorite_artist`, `log_play_history`) -/

/-- One row of the `favorite_artists` table (artist_name UNIQUE,
play_count default 0). -/
structure FavRow where
  artist_name : String
  added_date : ℕ
  play_count : ℕ
  deriving Repr, DecidableEq

/-- One row of the append-only `play_history` table. -/
structure HistRow where
  track_name : String
  artist_name : String
  album_name : Option String
  spotify_uri : Option String
  played_at : ℕ
  deriving Repr, DecidableEq

/-- `MusicDatabase.add_favorite_artist`: `INSERT OR IGNORE INTO
favorite_artists (artist_name, added_date) VALUES (?, datetime('now'))`,
returning `cursor.rowcount > 0` — `True` exactly when a row was actually
inserted, i.e. when no row with that (case-sensitively equal) name was
present. -/
def add_favorite_artist (favs : List FavRow) (name : String) (t : ℕ) :
    Bool × List FavRow :=
  if favs.any (fun r => r.artist_name == name) then (false, favs)
  else (true, favs ++ [⟨name, t, 0⟩])

/-- The row update of `UPDATE favorite_artists SET play_count =
play_count + 1 WHERE artist_name = ?` applied to one row. -/
def bumpPlay (artist : String) (r : FavRow) : FavRow :=
  if r.artist_name == artist then { r with play_count := r.play_count + 1 }
  else r

/-- `MusicDatabase.log_play_history`: appends one `play_history` row and
runs `UPDATE favorite_artists SET play_count = play_count + 1 WHERE
artist_name = ?`; returns `True` on the non-exceptional path. -/
def log_play_history (favs : List FavRow) (hist : List HistRow)
    (track artist : String) (album uri : Option String) (t : ℕ) :
    Bool × List FavRow × List HistRow :=
  (true,
    favs.map (bumpPlay artist),
    hist ++ [⟨track, artist, album, uri, t⟩])

/-- The play count the store holds for `name`: the count of the unique
`favorite_artists` row with that name, when one exists. -/
def playCountOf (favs : List FavRow) (name : String) : Option ℕ :=
  (favs.find? (fun r => r.artist_name == name)).map (·.play_count)

theorem bumpPlay_name (artist : String) (r : FavRow) :
    (bumpPlay artist r).artist_name = r.artist_name := by
  unfold bumpPlay
  split <;> rfl

theorem bumpPlay_count (artist : String) (r : FavRow) :
    (bumpPlay artist r).play_count =
      if r.artist_name = artist then r.play_count + 1 else r.play_count := by
  unfold bumpPlay
  by_cases h : r.artist_name = artist <;> simp [h]

theorem playCountOf_map_increment (favs : List FavRow) (artist n : String) :
    playCountOf (favs.map (bumpPlay artist)) n =
      (if n = artist then (playCountOf favs n).map (· + 1)
       else playCountOf favs n) := by
  induction favs with
  | nil => by_cases hn : n = artist <;> simp [playCountOf, hn]
  | cons r t ih =>
    by_cases hrn : r.artist_name = n
    · have hpos : ((bumpPlay artist r).artist_name == n) = true := by
        simp [bumpPlay_name, hrn]
      have hpos2 : (r.artist_name == n) = true := by simp [hrn]
      have e1 : ((r :: t).map (bumpPlay artist)).find?
          (fun r => r.artist_name == n) = some (bumpPlay artist r) := by
        rw [List.map_cons]
        exact List.find?_cons_of_pos _ hpos
      have e2 : (r :: t).find? (fun r => r.artist_name == n) = some r :=
        List.find?_cons_of_pos _ hpos2
      simp only [playCountOf, e1, e2]
      by_cases hna : n = artist
      · rw [if_pos hna]
        have : r.artist_name = artist := hrn.trans hna
        simp [bumpPlay_count, this]
      · rw [if_neg hna]
        have : ¬(r.artist_name = artist) := fun h => hna (hrn.symm.trans h)
        simp [bumpPlay_count, this]
    · have hneg : ¬((bumpPlay artist r).artist_name == n) = true := by
        simp [bumpPlay_name, hrn]
      have hneg2 : ¬(r.artist_name == n) = true := by simp [hrn]
      have e1 : ((r :: t).map (bumpPlay artist)).find?
          (fun r => r.artist_name == n) =
          (t.map (bumpPlay artist)).find? (fun r => r.artist_name == n) := by
        rw [List.map_cons]
        exact List.find?_cons_of_neg _ hneg
      have e2 : (r :: t).find? (fun r => r.artist_name == n) =
          t.find? (fun r => r.artist_name == n) :=
        List.find?_cons_of_neg _ hneg2
      simp only [playCountOf, e1, e2]
      simp only [playCountOf] at ih
      exact ih

/-- Claim C3: the first `add_favorite_artist` for a name returns success
and creates exactly one row for that name (with play_count 0); any later
add of the same name returns the non-success "already exists" outcome and
leaves the table unchanged (still exactly one row); `add_favorite_artist`
never changes any stored play count, and `log_play_history` is the only
operation that does, incrementing the played artist's count by exactly
one per logged play. -/
theorem favorite_add_once_and_play_count :
    (∀ (favs : List FavRow) (name : String) (t : ℕ),
      favs.countP (fun r => r.artist_name == name) = 0 →
        (add_favorite_artist favs name t).1 = true ∧
        (add_favorite_artist favs name t).2.countP
          (fun r => r.artist_name == name) = 1 ∧
        playCountOf (add_favorite_artist favs name t).2 name = some 0) ∧
    (∀ (favs : List FavRow) (name : String) (t : ℕ),
      favs.countP (fun r => r.artist_name == name) ≠ 0 →
        add_favorite_artist favs name t = (false, favs)) ∧
    (∀ (favs : List FavRow) (name n : String) (t : ℕ),
      playCountOf (add_favorite_artist favs name t).2 n = playCountOf favs n ∨
        (n = name ∧ playCountOf favs n = none ∧
          playCountOf (add_favorite_artist favs name t).2 n = some 0)) ∧
    (∀ (favs : List FavRow) (hist : List HistRow)
        (track artist n : String) (album uri : Option String) (t : ℕ),
      playCountOf (log_play_history favs hist track artist album uri t).2.1 n =
        (if n = artist then (playCountOf favs n).map (· + 1)
         else playCountOf favs n)) := by
  refine ⟨?_, ?_, ?_, ?_⟩
  · intro favs name t h
    have habs : ∀ r ∈ favs, ¬(r.artist_name == name) = true :=
      List.countP_eq_zero.mp h
    have hnone : favs.any (fun r => r.artist_name == name) = false := by
      rw [List.any_eq_false]
      exact habs
    have hfind : favs.find? (fun r => r.artist_name == name) = none :=
      List.find?_eq_none.mpr habs
    refine ⟨by simp [add_favorite_artist, hnone], ?_, ?_⟩
    · rw [add_favorite_artist]
      simp only [hnone, Bool.false_eq_true, if_false, List.countP_append, h]
      simp [List.countP_cons]
    · rw [add_favorite_artist]
      simp only [hnone, Bool.false_eq_true, if_false, playCountOf,
        List.find?_append, hfind, Option.none_or]
      simp [List.find?]
  · intro favs name t h
    have hsome : favs.any (fun r => r.artist_name == name) = true := by
      rw [List.any_eq_true]
      rcases List.countP_pos_iff.mp (Nat.pos_of_ne_zero h) with ⟨r, hr, hp⟩
      exact ⟨r, hr, hp⟩
    simp [add_favorite_artist, hsome]
  · intro favs name n t
    by_cases hany : favs.any (fun r => r.artist_name == name) = true
    · left; simp [add_favorite_artist, hany]
    · simp only [Bool.not_eq_true] at hany
      cases hfind : favs.find? (fun r => r.artist_name == n) with
      | some r =>
        left
        rw [add_favorite_artist]
        simp only [hany, Bool.false_eq_true, if_false, playCountOf,
          List.find?_append, hfind, Option.or_some]
      | none =>
        by_cases hn : n = name
        · right
          subst hn
          refine ⟨rfl, by simp [playCountOf, hfind], ?_⟩
          rw [add_favorite_artist]
          simp only [hany, Bool.false_eq_true, if_false, playCountOf,
            List.find?_append, hfind, Option.none_or]
          simp [List.find?]
        · left
          rw [add_favorite_artist]
          simp only [hany, Bool.false_eq_true, if_false, playCountOf,
            List.find?_append, hfind, Option.none_or]
          have hone : ([(⟨name, t, 0⟩ : FavRow)].find?
              (fun r => r.artist_name == n)) = none := by
            simp only [List.find?_eq_none, List.mem_singleton]
            rintro r rfl
            simp only [beq_iff_eq]
            exact fun hc => hn hc.symm
          rw [hone]
  · intro favs hist track artist n album uri t
    simpa [log_play_history] using playCountOf_map_increment favs artist n

/-- Concrete witness for `favorite_add_once_and_play_count`: from an
empty table, liking "Nine Inch Nails" succeeds, a second like fails and
changes nothing, and logging one play moves its count from 0 to 1. -/
theorem favorite_add_once_and_play_count_witness :
    (add_favorite_artist [] "Nine Inch Nails" 5).1 = true ∧
    (add_favorite_artist [] "Nine Inch Nails" 5).2.countP
      (fun r => r.artist_name == "Nine Inch Nails") = 1 ∧
    add_favorite_artist [⟨"Nine Inch Nails", 5, 0⟩] "Nine Inch Nails" 6 =
      (false, [⟨"Nine Inch Nails", 5, 0⟩]) ∧
    playCountOf
      (log_play_history [⟨"Nine Inch Nails", 5, 0⟩] [] "Hurt"
        "Nine Inch Nails" none none 7).2.1 "Nine Inch Nails" = some 1 := by
  refine ⟨(favorite_add_once_and_play_count.1 [] "Nine Inch Nails" 5
      (by decide)).1,
    (favorite_add_once_and_play_count.1 [] "Nine Inch Nails" 5
      (by decide)).2.1,
    favorite_add_once_and_play_count.2.1 [⟨"Nine Inch Nails", 5, 0⟩]
      "Nine Inch Nails" 6 (by decide), ?_⟩
  rw [favorite_add_once_and_play_count.2.2.2 [⟨"Nine Inch Nails", 5, 0⟩] []
    "Hurt" "Nine Inch Nails" "Nine Inch Nails" none none 7]
  decide

theorem insConfDesc_perm (x : TagRow) (l : List TagRow) :
    List.Perm (insConfDesc x l) (x :: l) := by
  induction l with
  | nil => exact List.Perm.refl _
  | cons y ys ih =>
    by_cases h : y.confidence ≤ x.confidence
    · rw [insConfDesc, if_pos h]
    · rw [insConfDesc, if_neg h]
      exact (List.Perm.cons y ih).trans (List.Perm.swap x y ys)

theorem sortConfDesc_perm (l : List TagRow) :
    List.Perm (sortConfDesc l) l := by
  induction l with
  | nil => exact List.Perm.refl _
  | cons x xs ih => exact (insConfDesc_perm x (sortConfDesc xs)).trans (ih.cons x)

theorem pairwise_insConfDesc (x : TagRow) (l : List TagRow)
    (h : l.Pairwise (fun a b => b.confidence ≤ a.confidence)) :
    (insConfDesc x l).Pairwise (fun a b => b.confidence ≤ a.confidence) := by
  induction l with
  | nil => simp [insConfDesc]
  | cons y ys ih =>
    rcases List.pairwise_cons.mp h with ⟨hy, hys⟩
    by_cases hc : y.confidence ≤ x.confidence
    · rw [insConfDesc, if_pos hc]
      refine List.pairwise_cons.mpr ⟨?_, h⟩
      intro z hz
      rcases List.mem_cons.mp hz with rfl | hz
      · exact hc
      · exact (hy z hz).trans hc
    · rw [insConfDesc, if_neg hc]
      refine List.pairwise_cons.mpr ⟨?_, ih hys⟩
      intro z hz
      rcases List.mem_cons.mp ((insConfDesc_perm x ys).mem_iff.mp hz)
        with rfl | hz
      · exact le_of_lt (lt_of_not_le hc)
      · exact hy z hz

theorem sortConfDesc_sorted (l : List TagRow) :
    (sortConfDesc l).Pairwise (fun a b => b.confidence ≤ a.confidence) := by
  induction l with
  | nil => simp [sortConfDesc]
  | cons x xs ih => exact pairwise_insConfDesc x (sortConfDesc xs) ih

theorem insConfDesc_filter_conf (x : TagRow) (l : List TagRow) (c : ℚ) :
    (insConfDesc x l).filter (fun r => r.confidence == c) =
      (if x.confidence == c then
        x :: l.filter (fun r => r.confidence == c)
      else l.filter (fun r => r.confidence == c)) := by
  induction l with
  | nil =>
    by_cases hx : (x.confidence == c) = true <;>
      simp [insConfDesc, List.filter, hx]
  | cons y ys ih =>
    by_cases hle : y.confidence ≤ x.confidence
    · rw [insConfDesc, if_pos hle, List.filter_cons]
    · have hgt : x.confidence < y.confidence := lt_of_not_le hle
      rw [insConfDesc, if_neg hle, List.filter_cons, List.filter_cons, ih]
      by_cases hy : (y.confidence == c) = true
      · by_cases hx : (x.confidence == c) = true
        · exfalso
          have h1 : y.confidence = c := beq_iff_eq.mp hy
          have h2 : x.confidence = c := beq_iff_eq.mp hx
          exact absurd (h2.trans h1.symm ▸ hgt) (lt_irrefl _)
        · simp [hy, hx]
      · by_cases hx : (x.confidence == c) = true <;> simp [hy, hx]

theorem sortConfDesc_filter_conf (l : List TagRow) (c : ℚ) :
    (sortConfDesc l).filter (fun r => r.confidence == c) =
      l.filter (fun r => r.confidence == c) := by
  induction l with
  | nil => rfl
  | cons x xs ih =>
    rw [sortConfDesc, insConfDesc_filter_conf, List.filter_cons, ih]

/-- The reading of claim C7's membership condition: rows of the queried
category whose value contains the query as a case-insensitive substring.
Written from the claim's words, to be compared against the source's
`LIKE`-based filter. -/
def tagClaimPred (cat v : String) (r : TagRow) : Bool :=
  r.tag_category == cat && ciHasSub r.tag_value v

/-- A concrete tags table used to separate `LIKE` from substring
containment: one genre tag whose value is the single letter "a". -/
def tagCexDb : List TagRow :=
  [⟨"artist", "A", none, "genre", "a", 1, 0, "user"⟩]

/-- Counterexample to claim C7 as stated: for the query value `"_"`
(an SQLite `LIKE` single-character wildcard), `get_entities_by_tag`
returns the tag row with value `"a"`, although `"a"` does not contain
`"_"` as a (case-insensitive) substring — so the result is not
"exactly the entities whose tag value contains the query". -/
theorem get_entities_by_tag_not_substring :
    ¬(∀ r, r ∈ get_entities_by_tag tagCexDb "genre" "_" none ↔
        (r ∈ tagCexDb ∧ tagClaimPred "genre" "_" r = true)) := by
  intro h
  have hr : (⟨"artist", "A", none, "genre", "a", 1, 0, "user"⟩ : TagRow) ∈
      get_entities_by_tag tagCexDb "genre" "_" none := by decide
  have := (h _).mp hr
  revert this
  decide

/-- Claim C7, amended: for every `(category, value)` query the fuzzy tag
lookup returns exactly the tag rows of that category whose value
`LIKE`-matches `'%' || value || '%'` under SQLite pattern semantics
(which is case-insensitive substring containment whenever the query has
no `%`/`_` wildcard), ordered by descending confidence with ties broken
by insertion (rowid) order — the tie-break is stated as: for every
confidence level, the subsequence of the result at that confidence equals
the subsequence of the table at that confidence, in table order. -/
theorem get_entities_by_tag_like_ordered (db : List TagRow) (cat v : String) :
    List.Perm (get_entities_by_tag db cat v none)
      (db.filter (tagQueryPred cat v none)) ∧
    (get_entities_by_tag db cat v none).Pairwise
      (fun a b => b.confidence ≤ a.confidence) ∧
    ∀ c : ℚ, (get_entities_by_tag db cat v none).filter
        (fun r => r.confidence == c) =
      (db.filter (tagQueryPred cat v none)).filter
        (fun r => r.confidence == c) :=
  ⟨sortConfDesc_perm _, sortConfDesc_sorted _,
    fun c => sortConfDesc_filter_conf _ c⟩

/-! ## Playlist lookup (`MusicDatabase.find_playlist_by_name`) -/

/-- One row of the `playlists` table, restricted to the columns the
lookup selects (plus the integer rowid `id` used as the foreign key of
`playlist_tracks`). -/
structure PlaylistRow where
  id : ℕ
  spotify_id : String
  name : String
  description : String
  owner_name : String
  track_count : ℕ
  spotify_uri : String
  last_synced : ℕ
  deriving Repr, DecidableEq

/-- `ORDER BY LENGTH(name) LIMIT 1` over rows in rowid order: the first
row of minimal name length (in characters, as SQLite `LENGTH`). -/
def minByNameLen : List PlaylistRow → Option PlaylistRow
  | [] => none
  | r :: rs =>
    match minByNameLen rs with
    | none => some r
    | some b => if b.name.length < r.name.length then some b else some r

/-- `MusicDatabase.find_playlist_by_name` (with its default
`fuzzy=True`): first an exact case-insensitive name match
(`WHERE LOWER(name) = LOWER(?) LIMIT 1`), then a fuzzy
`WHERE LOWER(name) LIKE LOWER('%'||?||'%') ORDER BY LENGTH(name) LIMIT 1`. -/
def find_playlist_by_name (db : List PlaylistRow) (q : String) :
    Option PlaylistRow :=
  match db.find? (fun r => lowerStr r.name == lowerStr q) with
  | some r => some r
  | none => minByNameLen (db.filter (fun r => likeFuzzy q r.name))

theorem minByNameLen_eq_none (l : List PlaylistRow) :
    minByNameLen l = none ↔ l = [] := by
  induction l with
  | nil => simp [minByNameLen]
  | cons r rs ih =>
    constructor
    · intro h
      exfalso
      cases hm : minByNameLen rs with
      | none =>
        simp only [minByNameLen, hm] at h
        exact Option.noConfusion h
      | some b =>
        simp only [minByNameLen, hm] at h
        by_cases hc : b.name.length < r.name.length
        · rw [if_pos hc] at h; exact Option.noConfusion h
        · rw [if_neg hc] at h; exact Option.noConfusion h
    · intro h
      exact List.noConfusion h

theorem minByNameLen_mem (l : List PlaylistRow) (r : PlaylistRow)
    (h : minByNameLen l = some r) : r ∈ l := by
  induction l with
  | nil => exact Option.noConfusion h
  | cons a rs ih =>
    cases hm : minByNameLen rs with
    | none =>
      simp only [minByNameLen, hm, Option.some.injEq] at h
      exact h ▸ List.mem_cons_self a rs
    | some b =>
      simp only [minByNameLen, hm] at h
      by_cases hc2 : b.name.length < a.name.length
      · rw [if_pos hc2, Option.some.injEq] at h
        exact List.mem_cons_of_mem a (ih (hm.trans (congrArg some h)))
      · rw [if_neg hc2, Option.some.injEq] at h
        exact h ▸ List.mem_cons_self a rs

theorem minByNameLen_min (l : List PlaylistRow) :
    ∀ r, minByNameLen l = some r →
      ∀ p ∈ l, r.name.length ≤ p.name.length := by
  induction l with
  | nil => intro r h; exact Option.noConfusion h
  | cons a rs ih =>
    intro r h
    cases hm : minByNameLen rs with
    | none =>
      simp only [minByNameLen, hm, Option.some.injEq] at h
      have : rs = [] := (minByNameLen_eq_none rs).mp hm
      subst this
      intro p hp
      rcases List.mem_cons.mp hp with rfl | hp
      · exact h ▸ Nat.le_refl _
      · exact absurd hp (List.not_mem_nil p)
    | some b =>
      simp only [minByNameLen, hm] at h
      by_cases hc : b.name.length < a.name.length
      · rw [if_pos hc, Option.some.injEq] at h
        subst h
        intro p hp
        rcases List.mem_cons.mp hp with rfl | hp
        · exact Nat.le_of_lt hc
        · exact ih b hm p hp
      · rw [if_neg hc, Option.some.injEq] at h
        subst h
        intro p hp
        rcases List.mem_cons.mp hp with rfl | hp
        · exact Nat.le_refl _
        · exact Nat.le_trans (Nat.le_of_not_lt hc) (ih b hm p hp)

/-- A one-playlist table whose single playlist is named "A". -/
def playlistCexDb : List PlaylistRow :=
  [⟨1, "p1", "A", "", "owner", 0, "uri1", 0⟩]

/-- Counterexample to claim C2 as stated: for the stored playlist "A"
and the query `"_"` (an SQLite `LIKE` single-character wildcard), there
is no exact match and no playlist whose name contains `"_"` as a
case-insensitive substring, so the claim demands that the lookup return
nothing; the code's `LIKE '%_%'` nevertheless matches "A" and the lookup
returns it. -/
theorem find_playlist_by_name_not_substring :
    ¬(match find_playlist_by_name playlistCexDb "_" with
      | some r => r ∈ playlistCexDb ∧
          ((∀ p ∈ playlistCexDb, lowerStr p.name ≠ lowerStr "_") →
            ciHasSub r.name "_" = true ∧
            ∀ p ∈ playlistCexDb, ciHasSub p.name "_" = true →
              r.name.length ≤ p.name.length)
      | none => ∀ p ∈ playlistCexDb,
          lowerStr p.name ≠ lowerStr "_" ∧ ciHasSub p.name "_" = false) := by
  intro h
  have hf : find_playlist_by_name playlistCexDb "_" =
      some ⟨1, "p1", "A", "", "owner", 0, "uri1", 0⟩ := by decide
  rw [hf] at h
  rcases h with ⟨-, h3⟩
  have hno : ∀ p ∈ playlistCexDb, lowerStr p.name ≠ lowerStr "_" := by decide
  have := (h3 hno).1
  revert this
  decide

/-- Claim C2, amended: playlist lookup returns a playlist whose name
equals the query case-insensitively when one exists; otherwise it
returns, among the playlists whose name `LIKE`-matches
`'%'||query||'%'` under SQLite pattern semantics (case-insensitive
substring containment whenever the query has no `%`/`_` wildcard), one
with the shortest name, and no result when no `LIKE` match exists.  In
particular, with stored playlists "Road Trip Mix" and "Road Trip Mix
2024", the query "road trip" returns "Road Trip Mix". -/
theorem find_playlist_by_name_policy :
    (∀ (db : List PlaylistRow) (q : String),
      match find_playlist_by_name db q with
      | some r => r ∈ db ∧
          ((∃ p ∈ db, lowerStr p.name = lowerStr q) →
            lowerStr r.name = lowerStr q) ∧
          ((∀ p ∈ db, lowerStr p.name ≠ lowerStr q) →
            likeFuzzy q r.name = true ∧
            ∀ p ∈ db, likeFuzzy q p.name = true →
              r.name.length ≤ p.name.length)
      | none => ∀ p ∈ db,
          lowerStr p.name ≠ lowerStr q ∧ likeFuzzy q p.name = false) ∧
    (find_playlist_by_name
      [⟨1, "sp1", "Road Trip Mix", "", "me", 13, "uri1", 0⟩,
       ⟨2, "sp2", "Road Trip Mix 2024", "", "me", 18, "uri2", 0⟩]
      "road trip").map (fun r => r.name) = some "Road Trip Mix" ∧
    (find_playlist_by_name
      [⟨2, "sp2", "Road Trip Mix 2024", "", "me", 18, "uri2", 0⟩,
       ⟨1, "sp1", "Road Trip Mix", "", "me", 13, "uri1", 0⟩]
      "road trip").map (fun r => r.name) = some "Road Trip Mix" := by
  refine ⟨?_, by decide, by decide⟩
  intro db q
  unfold find_playlist_by_name
  cases hf : db.find? (fun r => lowerStr r.name == lowerStr q) with
  | some r =>
    have hpr := List.find?_some hf
    have hpr2 : lowerStr r.name = lowerStr q := beq_iff_eq.mp hpr
    refine ⟨List.mem_of_find?_eq_some hf, fun _ => ?_, fun hno => ?_⟩
    · exact hpr2
    · exact absurd hpr2 (hno r (List.mem_of_find?_eq_some hf))
  | none =>
    have hnoexact : ∀ p ∈ db, ¬(lowerStr p.name == lowerStr q) = true :=
      List.find?_eq_none.mp hf
    cases hm : minByNameLen (db.filter (fun r => likeFuzzy q r.name)) with
    | some r =>
      have hrmem := minByNameLen_mem _ _ hm
      have hrdb : r ∈ db := (List.mem_filter.mp hrmem).1
      have hrlike : likeFuzzy q r.name = true := (List.mem_filter.mp hrmem).2
      refine ⟨hrdb, fun hex => ?_, fun _ => ⟨hrlike, fun p hp hpl => ?_⟩⟩
      · exfalso
        rcases hex with ⟨p, hp, hpe⟩
        exact hnoexact p hp (beq_iff_eq.mpr hpe)
      · exact minByNameLen_min _ _ hm p (List.mem_filter.mpr ⟨hp, hpl⟩)
    | none =>
      intro p hp
      have hempty : db.filter (fun r => likeFuzzy q r.name) = [] :=
        (minByNameLen_eq_none _).mp hm
      refine ⟨fun he => hnoexact p hp (beq_iff_eq.mpr he), ?_⟩
      by_cases hl : likeFuzzy q p.name = true
      · exact absurd (hempty ▸ List.mem_filter.mpr ⟨hp, hl⟩)
          (List.not_mem_nil p)
      · exact Bool.not_eq_true _ ▸ hl

/-- Concrete witness for `find_playlist_by_name_policy`: on the
two-playlist Road Trip table, the returned playlist is a member, is a
`LIKE` match, and has minimal name length among `LIKE` matches. -/
theorem find_playlist_by_name_policy_witness :
    (⟨1, "sp1", "Road Trip Mix", "", "me", 13, "uri1", 0⟩ : PlaylistRow) ∈
      [⟨1, "sp1", "Road Trip Mix", "", "me", 13, "uri1", 0⟩,
       ⟨2, "sp2", "Road Trip Mix 2024", "", "me", 18, "uri2", 0⟩] ∧
    likeFuzzy "road trip" "Road Trip Mix" = true := by
  have h := find_playlist_by_name_policy.1
    [⟨1, "sp1", "Road Trip Mix", "", "me", 13, "uri1", 0⟩,
     ⟨2, "sp2", "Road Trip Mix 2024", "", "me", 18, "uri2", 0⟩]
    "road trip"
  rw [show find_playlist_by_name
      [⟨1, "sp1", "Road Trip Mix", "", "me", 13, "uri1", 0⟩,
       ⟨2, "sp2", "Road Trip Mix 2024", "", "me", 18, "uri2", 0⟩]
      "road trip" =
      some ⟨1, "sp1", "Road Trip Mix", "", "me", 13, "uri1", 0⟩ from by decide]
    at h
  exact ⟨h.1, (h.2.2 (by decide)).1⟩

/-! ## Playlist track storage (`MusicDatabase.store_playlist_tracks`) -/

/-- The fields of one Spotify track object that the insert reads. -/
structure TrackIn where
  id : String
  name : String
  artists : List String
  album : Option String
  uri : String
  duration_ms : ℕ
  deriving Repr, DecidableEq

/-- One element of the `tracks` argument: an `added_at` timestamp and a
possibly-`None` track (removed tracks are `None` and are skipped). -/
structure PlaylistItem where
  added_at : String
  track : Option TrackIn
  deriving Repr, DecidableEq

/-- One row of the `playlist_tracks` table
(UNIQUE(playlist_id, spotify_track_id), FK playlist_id → playlists.id). -/
structure PTrackRow where
  playlist_id : ℕ
  spotify_track_id : String
  track_name : String
  artist_name : String
  album_name : String
  spotify_uri : String
  duration_ms : ℕ
  added_at : String
  track_position : ℕ
  deriving Repr, DecidableEq

/-- The row the insert builds from one track: first artist name or
"Unknown", album name or "Unknown", and the enumeration position. -/
def rowOfTrack (dbId : ℕ) (item : PlaylistItem) (tr : TrackIn) (pos : ℕ) :
    PTrackRow :=
  ⟨dbId, tr.id, tr.name, tr.artists.headD "Unknown",
    tr.album.getD "Unknown", tr.uri, tr.duration_ms, item.added_at, pos⟩

/-- The `for position, item in enumerate(tracks)` insert loop:
`None` tracks are skipped (but still consume a position), and
`INSERT OR IGNORE` drops a track whose (playlist_id, spotify_track_id)
key is already present in the table. -/
def insertLoop (dbId : ℕ) :
    List PTrackRow → List PlaylistItem → ℕ → List PTrackRow
  | tbl, [], _ => tbl
  | tbl, item :: rest, pos =>
    match item.track with
    | none => insertLoop dbId tbl rest (pos + 1)
    | some tr =>
      insertLoop dbId
        (if tbl.any (fun r =>
            r.playlist_id == dbId && r.spotify_track_id == tr.id)
         then tbl
         else tbl ++ [rowOfTrack dbId item tr pos])
        rest (pos + 1)

/-- The playlist part of the store: the `playlists` and
`playlist_tracks` tables. -/
structure MusicDB where
  playlists : List PlaylistRow
  playlist_tracks : List PTrackRow
  deriving Repr, DecidableEq

/-- `MusicDatabase.store_playlist_tracks`: looks up the playlist's rowid
by spotify id (returning `False` and leaving the store untouched when it
is absent), then — inside one transaction — deletes all of that
playlist's `playlist_tracks` rows and inserts the new track set. -/
def store_playlist_tracks (db : MusicDB) (pid : String)
    (items : List PlaylistItem) : Bool × MusicDB :=
  match db.playlists.find? (fun r => r.spotify_id == pid) with
  | none => (false, db)
  | some row =>
    (true,
      ⟨db.playlists,
        insertLoop row.id
          (db.playlist_tracks.filter (fun t => !(t.playlist_id == row.id)))
          items 0⟩)

theorem insertLoop_append (dbId : ℕ) (items : List PlaylistItem) :
    ∀ (tbl1 tbl2 : List PTrackRow) (pos : ℕ),
      (∀ r ∈ tbl1, ¬r.playlist_id = dbId) →
      (∀ r ∈ tbl2, r.playlist_id = dbId) →
      insertLoop dbId (tbl1 ++ tbl2) items pos =
        tbl1 ++ insertLoop dbId tbl2 items pos := by
  induction items with
  | nil => intro tbl1 tbl2 pos _ _; rfl
  | cons item rest ih =>
    intro tbl1 tbl2 pos h1 h2
    cases htr : item.track with
    | none =>
      simp only [insertLoop, htr]
      exact ih tbl1 tbl2 (pos + 1) h1 h2
    | some tr =>
      have hany1 : tbl1.any (fun r =>
          r.playlist_id == dbId && r.spotify_track_id == tr.id) = false := by
        rw [List.any_eq_false]
        intro r hr
        simp only [Bool.and_eq_true, beq_iff_eq, not_and]
        intro hid
        exact absurd hid (h1 r hr)
      simp only [insertLoop, htr, List.any_append, hany1, Bool.false_or]
      by_cases hany2 : tbl2.any (fun r =>
          r.playlist_id == dbId && r.spotify_track_id == tr.id) = true
      · rw [if_pos hany2, if_pos hany2]
        exact ih tbl1 tbl2 (pos + 1) h1 h2
      · rw [if_neg hany2, if_neg hany2, List.append_assoc]
        refine ih tbl1 (tbl2 ++ [rowOfTrack dbId item tr pos]) (pos + 1) h1 ?_
        intro r hr
        rcases List.mem_append.mp hr with hr | hr
        · exact h2 r hr
        · simp only [List.mem_singleton] at hr
          subst hr
          rfl

theorem insertLoop_all_dbId (dbId : ℕ) (items : List PlaylistItem) :
    ∀ (tbl : List PTrackRow) (pos : ℕ),
      (∀ r ∈ tbl, r.playlist_id = dbId) →
      ∀ r ∈ insertLoop dbId tbl items pos, r.playlist_id = dbId := by
  induction items with
  | nil => intro tbl pos h; exact h
  | cons item rest ih =>
    intro tbl pos h
    cases htr : item.track with
    | none =>
      simp only [insertLoop, htr]
      exact ih tbl (pos + 1) h
    | some tr =>
      simp only [insertLoop, htr]
      by_cases hany : tbl.any (fun r =>
          r.playlist_id == dbId && r.spotify_track_id == tr.id) = true
      · rw [if_pos hany]
        exact ih tbl (pos + 1) h
      · rw [if_neg hany]
        refine ih _ (pos + 1) ?_
        intro r hr
        rcases List.mem_append.mp hr with hr | hr
        · exact h r hr
        · simp only [List.mem_singleton] at hr
          subst hr
          rfl

/-- Claim C8: storing a track set for an absent playlist id fails with
the not-found outcome and leaves the whole store untouched; when the
playlist exists, the resync is one transition whose committed result
holds, for that playlist, exactly the rows derived from the new track
set (none of the old ones), and leaves every other playlist's rows and
the `playlists` table unchanged — no committed state mixes old and new
rows. -/
theorem store_playlist_tracks_atomic :
    (∀ (db : MusicDB) (pid : String) (items : List PlaylistItem),
      db.playlists.find? (fun r => r.spotify_id == pid) = none →
        store_playlist_tracks db pid items = (false, db)) ∧
    (∀ (db : MusicDB) (pid : String) (items : List PlaylistItem)
        (row : PlaylistRow),
      db.playlists.find? (fun r => r.spotify_id == pid) = some row →
        (store_playlist_tracks db pid items).1 = true ∧
        (store_playlist_tracks db pid items).2.playlists = db.playlists ∧
        (store_playlist_tracks db pid items).2.playlist_tracks.filter
            (fun t => !(t.playlist_id == row.id)) =
          db.playlist_tracks.filter (fun t => !(t.playlist_id == row.id)) ∧
        (store_playlist_tracks db pid items).2.playlist_tracks.filter
            (fun t => t.playlist_id == row.id) =
          insertLoop row.id [] items 0) := by
  constructor
  · intro db pid items h
    simp only [store_playlist_tracks, h]
  · intro db pid items row h
    have hcl : ∀ r ∈ db.playlist_tracks.filter
        (fun t => !(t.playlist_id == row.id)), ¬r.playlist_id = row.id := by
      intro r hr
      have := (List.mem_filter.mp hr).2
      simp only [Bool.not_eq_true', beq_eq_false_iff_ne, ne_eq] at this
      exact this
    have hsplit := insertLoop_append row.id items
      (db.playlist_tracks.filter (fun t => !(t.playlist_id == row.id))) [] 0
      hcl (by intro r hr; exact absurd hr (List.not_mem_nil r))
    have hnew : ∀ r ∈ insertLoop row.id [] items 0,
        r.playlist_id = row.id :=
      insertLoop_all_dbId row.id items [] 0
        (by intro r hr; exact absurd hr (List.not_mem_nil r))
    simp only [store_playlist_tracks, h, List.append_nil] at hsplit ⊢
    rw [hsplit]
    refine ⟨by trivial, by trivial, ?_, ?_⟩
    · rw [List.filter_append]
      have h2 : (insertLoop row.id [] items 0).filter
          (fun t => !(t.playlist_id == row.id)) = [] := by
        rw [List.filter_eq_nil_iff]
        intro r hr
        simp only [Bool.not_eq_true', beq_eq_false_iff_ne, ne_eq,
          Decidable.not_not]
        exact hnew r hr
      have h1 : (db.playlist_tracks.filter
          (fun t => !(t.playlist_id == row.id))).filter
          (fun t => !(t.playlist_id == row.id)) =
          db.playlist_tracks.filter (fun t => !(t.playlist_id == row.id)) :=
        List.filter_eq_self.mpr (fun a ha => (List.mem_filter.mp ha).2)
      rw [h1, h2, List.append_nil]
    · rw [List.filter_append]
      have h1 : (db.playlist_tracks.filter
          (fun t => !(t.playlist_id == row.id))).filter
          (fun t => t.playlist_id == row.id) = [] := by
        rw [List.filter_eq_nil_iff]
        intro r hr
        simp only [beq_iff_eq]
        exact hcl r hr
      have h2 : (insertLoop row.id [] items 0).filter
          (fun t => t.playlist_id == row.id) =
          insertLoop row.id [] items 0 :=
        List.filter_eq_self.mpr (fun a ha => beq_iff_eq.mpr (hnew a ha))
      rw [h1, h2, List.nil_append]

/-- Concrete witness for `store_playlist_tracks_atomic`: on a store
with one playlist "P" (rowid 1) and one old track row, storing against a
missing spotify id fails and changes nothing, and storing one new track
against "sp1" succeeds. -/
theorem store_playlist_tracks_atomic_witness :
    store_playlist_tracks
      ⟨[⟨1, "sp1", "P", "", "o", 0, "u", 0⟩],
       [⟨1, "old", "x", "y", "z", "u", 0, "t", 0⟩]⟩ "nope"
      [⟨"2020", some ⟨"tid", "T", ["Art"], some "Alb", "uri", 100⟩⟩] =
      (false,
        ⟨[⟨1, "sp1", "P", "", "o", 0, "u", 0⟩],
         [⟨1, "old", "x", "y", "z", "u", 0, "t", 0⟩]⟩) ∧
    (store_playlist_tracks
      ⟨[⟨1, "sp1", "P", "", "o", 0, "u", 0⟩],
       [⟨1, "old", "x", "y", "z", "u", 0, "t", 0⟩]⟩ "sp1"
      [⟨"2020", some ⟨"tid", "T", ["Art"], some "Alb", "uri", 100⟩⟩]).1 =
      true := by
  constructor
  · exact store_playlist_tracks_atomic.1
      ⟨[⟨1, "sp1", "P", "", "o", 0, "u", 0⟩],
       [⟨1, "old", "x", "y", "z", "u", 0, "t", 0⟩]⟩ "nope"
      [⟨"2020", some ⟨"tid", "T", ["Art"], some "Alb", "uri", 100⟩⟩]
      (by decide)
  · exact (store_playlist_tracks_atomic.2
      ⟨[⟨1, "sp1", "P", "", "o", 0, "u", 0⟩],
       [⟨1, "old", "x", "y", "z", "u", 0, "t", 0⟩]⟩ "sp1"
      [⟨"2020", some ⟨"tid", "T", ["Art"], some "Alb", "uri", 100⟩⟩]
      ⟨1, "sp1", "P", "", "o", 0, "u", 0⟩ (by decide)).1

/-! ## Daemon: track-change detection and polling
(`music_daemon.py`, `MusicDaemon`) -/

/-- A now-playing snapshot as `get_current_track` returns it: either a
non-playing status message or a playing (name, artist) pair. -/
inductive CurrentTrack where
  | stopped (status : String)
  | playing (name artist : String)
  deriving Repr, DecidableEq

/-- `MusicDaemon._has_track_changed`: `False` when the current sample is
not playing; `True` when the previous sample is missing or not playing;
otherwise the concatenated change keys `name + "-" + artist` are
compared. -/
def has_track_changed (last : Option CurrentTrack) (cur : CurrentTrack) :
    Bool :=
  match cur with
  | .stopped _ => false
  | .playing n a =>
    match last with
    | none => true
    | some (.stopped _) => true
    | some (.playing ln la) => !((n ++ "-" ++ a) == (ln ++ "-" ++ la))

/-- One observation of `_polling_loop`'s body on a successful sample:
enrichment (`_handle_track_change`) runs exactly when
`_has_track_changed` holds, and `last_known_track` is set to the
sample. -/
def poll_observe (last : Option CurrentTrack) (cur : CurrentTrack) :
    Bool × Option CurrentTrack :=
  (has_track_changed last cur, some cur)

/-- Counterexample to claim C4 as stated: between the consecutive
playing samples ("a-b", "c") and ("a", "b-c") the (track, artist) key
pair changes, yet both concatenate to the change key "a-b-c", so
`_has_track_changed` reports no change — detection is not "exactly when
the playing key pair differs". -/
theorem has_track_changed_collision :
    ¬(has_track_changed (some (.playing "a-b" "c")) (.playing "a" "b-c") =
        true ↔
      ¬((("a" : String), ("b-c" : String)) =
        (("a-b" : String), ("c" : String)))) := by
  decide

/-- Claim C4, amended: the poller detects a change (and so triggers
enrichment) exactly when the current sample is playing and either the
previous sample is missing/not playing or the concatenated change key
`name + "-" + artist` differs from the previous one (for key pairs free
of such "-" collisions this is exactly pair inequality); a not-playing
sample is never a change, and two consecutive samples of the same
playing pair trigger no enrichment. -/
theorem has_track_changed_policy :
    (∀ (last : Option CurrentTrack) (msg : String),
      has_track_changed last (.stopped msg) = false) ∧
    (∀ n a, has_track_changed none (.playing n a) = true) ∧
    (∀ n a msg,
      has_track_changed (some (.stopped msg)) (.playing n a) = true) ∧
    (∀ n a ln la,
      has_track_changed (some (.playing ln la)) (.playing n a) = true ↔
        ¬(n ++ "-" ++ a = ln ++ "-" ++ la)) ∧
    (∀ n a, (poll_observe (some (.playing n a)) (.playing n a)).1 = false) := by
  refine ⟨?_, ?_, ?_, ?_, ?_⟩
  · intro last msg; cases last with
    | none => rfl
    | some t => cases t <;> rfl
  · intro n a; rfl
  · intro n a msg; rfl
  · intro n a ln la
    simp [has_track_changed]
  · intro n a
    simp [poll_observe, has_track_changed]

/-- Concrete witness for `has_track_changed_policy`: a genuine track
change on the same artist is detected. -/
theorem has_track_changed_policy_witness :
    has_track_changed (some (.playing "Hurt" "Nine Inch Nails"))
      (.playing "Closer" "Nine Inch Nails") = true :=
  (has_track_changed_policy.2.2.2.1 "Closer" "Nine Inch Nails"
    "Hurt" "Nine Inch Nails").mpr (by decide)

/-- The daemon state the polling loop reads and writes. -/
structure PollState where
  running : Bool
  autoSyncEnabled : Bool
  agentPresent : Bool
  lastKnownTrack : Option CurrentTrack
  deriving Repr, DecidableEq

/-- `MusicDaemon.polling_interval` (seconds). -/
def pollingInterval : ℕ := 30

/-- One iteration body of `_polling_loop`, with the sampling outcome
(`get_current_track`, possibly raising) and the enrichment outcome
(`_handle_track_change`, which catches its own errors) passed in as
inputs: the `try`/`except` catches a failed cycle, leaving the state
unchanged; either way the loop sleeps the fixed interval (returned as
the second component). -/
def pollCycle (st : PollState) (sample : Except String CurrentTrack)
    (enrich : Except String Unit) : PollState × ℕ :=
  if st.agentPresent then
    match sample, enrich with
    | .error _, _ => (st, pollingInterval)
    | .ok cur, _ => ({ st with lastKnownTrack := some cur }, pollingInterval)
  else (st, pollingInterval)

/-- The polling loop run against a finite stream of cycle inputs:
it keeps cycling while `running` and `auto_sync_enabled` hold, and
counts the cycles it completed. -/
def pollLoop (st : PollState) :
    List (Except String CurrentTrack × Except String Unit) → PollState × ℕ
  | [] => (st, 0)
  | input :: rest =>
    if st.running && st.autoSyncEnabled then
      ((pollLoop (pollCycle st input.1 input.2).1 rest).1,
        (pollLoop (pollCycle st input.1 input.2).1 rest).2 + 1)
    else (st, 0)

/-- Claim C6: no error inside a cycle terminates the polling loop: every
cycle — including one whose sampling or enrichment input is an error —
re-arms after the fixed interval and leaves the loop-controlling flags
untouched; consequently a running loop consumes every cycle of any
finite input stream, regardless of how many of them fail. -/
theorem polling_loop_survives_errors :
    (∀ (st : PollState) (sample : Except String CurrentTrack)
        (enrich : Except String Unit),
      (pollCycle st sample enrich).2 = pollingInterval ∧
      (pollCycle st sample enrich).1.running = st.running ∧
      (pollCycle st sample enrich).1.autoSyncEnabled =
        st.autoSyncEnabled) ∧
    (∀ (st : PollState)
        (inputs : List (Except String CurrentTrack × Except String Unit)),
      st.running = true → st.autoSyncEnabled = true →
      (pollLoop st inputs).2 = inputs.length) := by
  have hcyc : ∀ (st : PollState) (sample : Except String CurrentTrack)
      (enrich : Except String Unit),
      (pollCycle st sample enrich).2 = pollingInterval ∧
      (pollCycle st sample enrich).1.running = st.running ∧
      (pollCycle st sample enrich).1.autoSyncEnabled = st.autoSyncEnabled := by
    intro st sample enrich
    unfold pollCycle
    by_cases hag : st.agentPresent = true
    · rw [if_pos hag]
      cases sample <;> exact ⟨rfl, rfl, rfl⟩
    · rw [if_neg hag]
      exact ⟨rfl, rfl, rfl⟩
  refine ⟨hcyc, ?_⟩
  intro st inputs
  induction inputs generalizing st with
  | nil => intro _ _; rfl
  | cons input rest ih =>
    intro hr ha
    rw [pollLoop, if_pos (by rw [hr, ha]; rfl)]
    have h2 := hcyc st input.1 input.2
    rw [ih (pollCycle st input.1 input.2).1 (h2.2.1.trans hr)
      (h2.2.2.trans ha)]
    rfl

/-- Concrete witness for `polling_loop_survives_errors`: a running loop
fed one failing cycle and one successful cycle completes both. -/
theorem polling_loop_survives_errors_witness :
    (pollLoop ⟨true, true, true, none⟩
      [(Except.error "applescript timeout", Except.error "spotify down"),
       (Except.ok (.playing "Hurt" "Nine Inch Nails"), Except.ok ())]).2 =
      2 :=
  polling_loop_survives_errors.2 ⟨true, true, true, none⟩
    [(Except.error "applescript timeout", Except.error "spotify down"),
     (Except.ok (.playing "Hurt" "Nine Inch Nails"), Except.ok ())]
    rfl rfl

/-! ## Daemon: request handling (`MusicDaemon._handle_client`) -/

/-- One parsed request: either the envelope failed to parse as JSON, or
it carried a command string (`command_data.get('command', '')`). -/
inductive DReq where
  | malformed
  | cmd (s : String)
  deriving Repr, DecidableEq

/-- The externally visible action a request triggers besides its
response: running a music command through the agent, a manual sync, or
the shutdown path.  `none` means the request touches neither the agent
nor the knowledge store. -/
inductive DaemonAction where
  | agentCmd (s : String)
  | manualSync
  | shutdown
  deriving Repr, DecidableEq

/-- A response envelope, restricted to the two fields the claims are
about: the `status` string and the optional `message` field (`none`
models a JSON object with no "message" key; further fields such as
`timestamp` or the health snapshot are irrelevant to the claims). -/
structure DResponse where
  status : String
  message : Option String
  deriving Repr, DecidableEq

/-- The collaborator outcomes a request handler can observe: whether the
agent is initialized, the outcome of building the status snapshot, the
outcome of `handle_command` per command string (an `error` models a
raised exception, caught and stringified), and the outcome of
`_manual_sync`'s fetch-and-analyze (its not-playing and exception cases
collapse into `error`). -/
structure DaemonCtx where
  agentPresent : Bool
  statusResult : Except String (Option CurrentTrack)
  handleResult : String → Except String String
  syncResult : Except String String

/-- `MusicDaemon._get_status`: on success the response dict carries
`'status': 'success'` plus health fields but no `'message'` key; a
raised exception is caught and returned as an error with a message. -/
def get_status (ctx : DaemonCtx) : DResponse :=
  match ctx.statusResult with
  | .ok _ => ⟨"success", none⟩
  | .error e => ⟨"error", some e⟩

/-- `MusicDaemon._handle_music_command`: missing agent yields an error;
otherwise `handle_command`'s result string becomes a success message and
a raised exception is caught into an error message. -/
def handle_music_command (ctx : DaemonCtx) (mc : String) :
    DResponse × Option DaemonAction :=
  if ctx.agentPresent then
    match ctx.handleResult mc with
    | .ok r => (⟨"success", some r⟩, some (.agentCmd mc))
    | .error e => (⟨"error", some e⟩, some (.agentCmd mc))
  else (⟨"error", some "Music agent not initialized"⟩, none)

/-- `MusicDaemon._manual_sync` for the `music:sync` command. -/
def manual_sync (ctx : DaemonCtx) : DResponse × Option DaemonAction :=
  if ctx.agentPresent then
    match ctx.syncResult with
    | .ok r =>
      (⟨"success", some ("Manual sync completed\n" ++ r)⟩, some .manualSync)
    | .error e => (⟨"error", some e⟩, some .manualSync)
  else (⟨"error", some "Music agent not initialized"⟩, none)

/-- Python `command[6:]`: dropping the `music:` prefix, by code points. -/
def stringDrop (s : String) (n : ℕ) : String :=
  ⟨s.data.drop n⟩

/-- Python `command.startswith(pre)`. -/
def startsWithStr (s pre : String) : Bool :=
  leadsWith s.data pre.data

/-- The per-request dispatch of `MusicDaemon._handle_client`: each
received request yields exactly one response (this function is total and
single-valued) and at most one daemon action; a `json.JSONDecodeError`
yields the Invalid JSON error, and the command is matched against
`ping`, `status`, `shutdown`, the `music:` prefix, and otherwise
rejected as unknown. -/
def handleRequest (ctx : DaemonCtx) (req : DReq) :
    DResponse × Option DaemonAction :=
  match req with
  | .malformed => (⟨"error", some "Invalid JSON"⟩, none)
  | .cmd s =>
    if s == "ping" then (⟨"success", some "pong"⟩, none)
    else if s == "status" then (get_status ctx, none)
    else if s == "shutdown" then
      (⟨"success", some "shutting down"⟩, some .shutdown)
    else if startsWithStr s "music:" then
      if stringDrop s 6 == "sync" then manual_sync ctx
      else handle_music_command ctx (stringDrop s 6)
    else (⟨"error", some ("Unknown command: " ++ s)⟩, none)

/-- A fixed healthy context for the closed instances: agent present,
status snapshot succeeds with nothing playing, every music command and
sync succeed. -/
def ctxHealthy : DaemonCtx :=
  ⟨true, Except.ok none, fun _ => Except.ok "done", Except.ok "synced"⟩

/-- Counterexample to claim C5 as stated: the success response to the
built-in `status` request is well-formed JSON with `'status':'success'`
and the health snapshot, but carries no `'message'` field — so not every
response envelope contains a message. -/
theorem status_response_lacks_message :
    ¬(((handleRequest ctxHealthy (.cmd "status")).1.status = "success" ∨
        (handleRequest ctxHealthy (.cmd "status")).1.status = "error") ∧
      (handleRequest ctxHealthy (.cmd "status")).1.message.isSome = true) := by
  decide

/-- Claim C5, amended: every request — including a malformed envelope
and a command whose handler raises — yields exactly one response (the
dispatch is a total function), the response always has a `status` of
"success" or "error", and it carries a `message` except in the one case
of the success response to the built-in `status` command, which carries
the health snapshot instead. -/
theorem response_envelope_well_formed (ctx : DaemonCtx) (req : DReq) :
    ((handleRequest ctx req).1.status = "success" ∨
      (handleRequest ctx req).1.status = "error") ∧
    ((handleRequest ctx req).1.message.isSome = true ∨
      (req = DReq.cmd "status" ∧
        (handleRequest ctx req).1.status = "success")) := by
  cases req with
  | malformed => exact ⟨Or.inr rfl, Or.inl rfl⟩
  | cmd s =>
    simp only [handleRequest]
    by_cases h1 : (s == "ping") = true
    · rw [if_pos h1]; exact ⟨Or.inl rfl, Or.inl rfl⟩
    · rw [if_neg h1]
      by_cases h2 : (s == "status") = true
      · rw [if_pos h2]
        have hs : s = "status" := beq_iff_eq.mp h2
        subst hs
        unfold get_status
        cases hst : ctx.statusResult with
        | ok c => exact ⟨Or.inl rfl, Or.inr ⟨rfl, rfl⟩⟩
        | error e => exact ⟨Or.inr rfl, Or.inl rfl⟩
      · rw [if_neg h2]
        by_cases h3 : (s == "shutdown") = true
        · rw [if_pos h3]; exact ⟨Or.inl rfl, Or.inl rfl⟩
        · rw [if_neg h3]
          by_cases h4 : startsWithStr s "music:" = true
          · rw [if_pos h4]
            by_cases h5 : (stringDrop s 6 == "sync") = true
            · rw [if_pos h5]
              unfold manual_sync
              by_cases hag : ctx.agentPresent = true
              · rw [if_pos hag]
                cases ctx.syncResult with
                | ok r => exact ⟨Or.inl rfl, Or.inl rfl⟩
                | error e => exact ⟨Or.inr rfl, Or.inl rfl⟩
              · rw [if_neg hag]; exact ⟨Or.inr rfl, Or.inl rfl⟩
            · rw [if_neg h5]
              unfold handle_music_command
              by_cases hag : ctx.agentPresent = true
              · rw [if_pos hag]
                cases ctx.handleResult (stringDrop s 6) with
                | ok r => exact ⟨Or.inl rfl, Or.inl rfl⟩
                | error e => exact ⟨Or.inr rfl, Or.inl rfl⟩
              · rw [if_neg hag]; exact ⟨Or.inr rfl, Or.inl rfl⟩
          · rw [if_neg h4]; exact ⟨Or.inr rfl, Or.inl rfl⟩

/-- Claim C10: a well-formed request whose command is none of `ping`,
`status`, `shutdown` and does not start with `music:` receives the error
response naming the unknown command, and triggers no agent action and no
knowledge-store mutation (`none` action). -/
theorem unknown_command_rejected (ctx : DaemonCtx) (s : String)
    (h1 : ¬s = "ping") (h2 : ¬s = "status") (h3 : ¬s = "shutdown")
    (h4 : startsWithStr s "music:" = false) :
    handleRequest ctx (.cmd s) =
      (⟨"error", some ("Unknown command: " ++ s)⟩, none) := by
  simp only [handleRequest]
  rw [if_neg (fun h => h1 (beq_iff_eq.mp h)),
    if_neg (fun h => h2 (beq_iff_eq.mp h)),
    if_neg (fun h => h3 (beq_iff_eq.mp h)),
    if_neg (fun h => by rw [h4] at h; exact Bool.noConfusion h)]

/-- Concrete witness for `unknown_command_rejected`: the command
"hello" is rejected with the unknown-command error and no action. -/
theorem unknown_command_rejected_witness :
    handleRequest ctxHealthy (.cmd "hello") =
      (⟨"error", some "Unknown command: hello"⟩, none) :=
  unknown_command_rejected ctxHealthy "hello" (by decide) (by decide)
    (by decide) (by decide)

/-! ## Command dispatch (`ComprehensiveMusicAgent.handle_command`) -/

/-- The intents of `handle_command`, one per `if`/`elif` branch in
source order; handlers (which run store and player effects and build the
result string) are modelled by these labels, and `help` is the terminal
fallback branch.  `lyricsCurrent` is the second, unreachable `lyrics`
branch near the end of the chain. -/
inductive Intent where
  | sync
  | nextTrack
  | previousTrack
  | pause
  | resume
  | whatsPlaying
  | likeArtist
  | favorites
  | tagThis
  | showTags
  | findSongsTagged
  | shuffleLiked
  | shufflePlaylist
  | listPlaylists
  | playPlaylist
  | randomFrom
  | analyzeMusic
  | lyricSearch
  | playByTag
  | playArtistCollection
  | playTrack
  | searchTrack
  | addRelationship
  | showRelationships
  | lyricsCurrent
  | help
  deriving Repr, DecidableEq

/-- The dispatch skeleton of `handle_command`: the command is lowercased
once and then run through the `if`/`elif` chain exactly as written in
the source; the first branch whose condition holds names the intent that
runs. -/
def handle_command_intent (cmd : String) : Intent :=
  let c := lowerStr cmd
  if c == "sync" then .sync
  else if strHas c "next track" || strHas c "skip" || strHas c "next" then
    .nextTrack
  else if strHas c "previous track" || strHas c "back" ||
      strHas c "previous" then .previousTrack
  else if strHas c "pause" then .pause
  else if strHas c "resume" || strHas c "unpause" then .resume
  else if strHas c "what\x27s playing" || strHas c "current track" then
    .whatsPlaying
  else if strHas c "like" && (strHas c "artist" || strHas c "this") then
    .likeArtist
  else if strHas c "favorites" || strHas c "favourite" then .favorites
  else if strHas c "tag this" || strHas c "add tag" then .tagThis
  else if strHas c "show tags" || strHas c "what tags" then .showTags
  else if strHas c "find songs tagged" || strHas c "play songs tagged" then
    .findSongsTagged
  else if strHas c "shuffle" &&
      (strHas c "liked songs" || strHas c "my liked") then .shuffleLiked
  else if strHas c "shuffle" && strHas c "playlist" then .shufflePlaylist
  else if strHas c "list playlists" || strHas c "show playlists" then
    .listPlaylists
  else if strHas c "play playlist" || strHas c "play the playlist" then
    .playPlaylist
  else if strHas c "random from" then .randomFrom
  else if strHas c "what kind of music" || strHas c "what genre" ||
      strHas c "what style" || strHas c "describe this music" then
    .analyzeMusic
  else if strHas c "where they say" || strHas c "lyrics" then .lyricSearch
  else if (strHas c "play some" || strHas c "play something" ||
        strHas c "i want to hear" || strHas c "put on some") &&
      (strHas c "music" || strHas c "song" || strHas c "track") then
    .playByTag
  else if strHas c "play me some" || strHas c "play some" then
    .playArtistCollection
  else if strHas c "play" && !strHas c "playing" then .playTrack
  else if strHas c "search" || strHas c "find" then .searchTrack
  else if strHas c "add relationship" || strHas c "this is" then
    .addRelationship
  else if strHas c "show relationships" || strHas c "what relationships" then
    .showRelationships
  else if strHas c "lyrics" then .lyricsCurrent
  else .help

/-- The same dispatch, written as the spec describes it: a fixed,
ordered table of (predicate, intent) pairs over the lowercased command
text. -/
def intentTable : List ((String → Bool) × Intent) :=
  [(fun c => c == "sync", .sync),
   (fun c => strHas c "next track" || strHas c "skip" || strHas c "next",
     .nextTrack),
   (fun c => strHas c "previous track" || strHas c "back" ||
     strHas c "previous", .previousTrack),
   (fun c => strHas c "pause", .pause),
   (fun c => strHas c "resume" || strHas c "unpause", .resume),
   (fun c => strHas c "what\x27s playing" || strHas c "current track",
     .whatsPlaying),
   (fun c => strHas c "like" && (strHas c "artist" || strHas c "this"),
     .likeArtist),
   (fun c => strHas c "favorites" || strHas c "favourite", .favorites),
   (fun c => strHas c "tag this" || strHas c "add tag", .tagThis),
   (fun c => strHas c "show tags" || strHas c "what tags", .showTags),
   (fun c => strHas c "find songs tagged" || strHas c "play songs tagged",
     .findSongsTagged),
   (fun c => strHas c "shuffle" &&
     (strHas c "liked songs" || strHas c "my liked"), .shuffleLiked),
   (fun c => strHas c "shuffle" && strHas c "playlist", .shufflePlaylist),
   (fun c => strHas c "list playlists" || strHas c "show playlists",
     .listPlaylists),
   (fun c => strHas c "play playlist" || strHas c "play the playlist",
     .playPlaylist),
   (fun c => strHas c "random from", .randomFrom),
   (fun c => strHas c "what kind of music" || strHas c "what genre" ||
     strHas c "what style" || strHas c "describe this music",
     .analyzeMusic),
   (fun c => strHas c "where they say" || strHas c "lyrics", .lyricSearch),
   (fun c => (strHas c "play some" || strHas c "play something" ||
       strHas c "i want to hear" || strHas c "put on some") &&
     (strHas c "music" || strHas c "song" || strHas c "track"),
     .playByTag),
   (fun c => strHas c "play me some" || strHas c "play some",
     .playArtistCollection),
   (fun c => strHas c "play" && !strHas c "playing", .playTrack),
   (fun c => strHas c "search" || strHas c "find", .searchTrack),
   (fun c => strHas c "add relationship" || strHas c "this is",
     .addRelationship),
   (fun c => strHas c "show relationships" || strHas c "what relationships",
     .showRelationships),
   (fun c => strHas c "lyrics", .lyricsCurrent)]

/-- First-match evaluation of an intent table, falling back to the help
intent. -/
def firstIntent : List ((String → Bool) × Intent) → String → Intent
  | [], _ => .help
  | e :: es, c => if e.1 c then e.2 else firstIntent es c

theorem firstIntent_all_false (table : List ((String → Bool) × Intent))
    (c : String) (h : ∀ e ∈ table, e.1 c = false) :
    firstIntent table c = .help := by
  induction table with
  | nil => rfl
  | cons e es ih =>
    rw [firstIntent,
      if_neg (by rw [h e (List.mem_cons_self e es)]; exact Bool.noConfusion)]
    exact ih (fun e2 he2 => h e2 (List.mem_cons_of_mem e he2))

/-- Claim C9: `handle_command` lowercases the command text and tests it
against the fixed ordered table of intent predicates, running exactly
the first intent whose predicate matches, so for inputs matched by
several overlapping predicates the table order alone decides: "play some
mellow music" dispatches to the tag-based play intent and "play me some
Enya" to the artist-collection intent; an input matching no predicate
lands in the terminal help branch (the fixed fallback response). -/
theorem handle_command_first_match :
    (∀ cmd : String,
      handle_command_intent cmd = firstIntent intentTable (lowerStr cmd)) ∧
    (∀ cmd : String,
      (∀ e ∈ intentTable, e.1 (lowerStr cmd) = false) →
        handle_command_intent cmd = .help) ∧
    handle_command_intent "play some mellow music" = .playByTag ∧
    handle_command_intent "play me some Enya" = .playArtistCollection := by
  have href : ∀ cmd : String,
      handle_command_intent cmd = firstIntent intentTable (lowerStr cmd) :=
    fun cmd => rfl
  refine ⟨href, ?_, by decide, by decide⟩
  intro cmd h
  rw [href cmd]
  exact firstIntent_all_false intentTable (lowerStr cmd) h

/-- Concrete witness for `handle_command_first_match`: the input "qqq"
matches no predicate of the table and lands in the help fallback. -/
theorem handle_command_first_match_witness :
    handle_command_intent "qqq" = .help :=
  handle_command_first_match.2.1 "qqq" (by decide)

end MusicAgent
